import Mathlib

/-!
# Verification of the OEV Orbit bot (api3dao/oev-orbit-bot-example)

Shallow embedding of the seeker bot's core logic, translated from the
TypeScript sources:

* `src/oev-bot.ts` — auction-network log replay (`buildOevNetworkState`),
  log pruning (`pruneLogs`), bid lifecycle (`attemptLiquidation`,
  `findOevLiquidation`);
* `src/accounts-to-watch.ts` — borrower watch-list construction
  (`getAccountsToWatch`, `checkHealthOfAccounts`);
* `src/commons.ts` — `min`, `getPercentageValue`;
* `src/interfaces.ts` — `encodeBidDetails` / `decodeBidDetails`;
* `src/constants.ts` — numeric constants.

JavaScript `bigint` values are modelled as `Int` (division written
`Int.tdiv`, which truncates toward zero exactly as `bigint` division
does).  Number-valued percentages are passed to `getPercentageValue`
already multiplied by `10^10` and truncated — for every percentage the
program uses (0.2, 3, 95, 100.2) the IEEE-754 computation
`Math.trunc(percent * 10 ** 10)` is exact, so the integer parameter is
faithful.  Fallible lookups (JavaScript `Map.get(...)!` followed by a
property write, which throws a `TypeError` on `undefined`) are modelled
with `Option`: `none` is the runtime error.
-/

set_option maxRecDepth 10000

namespace OevBot

/-! ## Constants (from `src/constants.ts`) -/

/-- `BID_CONDITION.LTE = 0n`. -/
def BID_CONDITION_LTE : Int := 0

/-- `BID_CONDITION.GTE = 1n`. -/
def BID_CONDITION_GTE : Int := 1

/-- `MIN_LIQUIDATION_PROFIT_USD = parseEther('0.01')` (USD has 18 decimals). -/
def MIN_LIQUIDATION_PROFIT_USD : Int := 10 ^ 16

/-- `MIN_ETH_BORROW = parseEther('0.01')`. -/
def MIN_ETH_BORROW : Int := 10 ^ 16

/-- `SAFE_COLLATERAL_BUFFER_PERCENT = 3`, pre-scaled by `10^10`
(`Math.trunc(3 * 10 ** 10) = 3 * 10^10`, exact in IEEE-754). -/
def SAFE_COLLATERAL_BUFFER_PERCENT_E10 : Int := 3 * 10 ^ 10

/-- `MAX_COLLATERAL_REPAY_PERCENTAGE = 95`, pre-scaled by `10^10`. -/
def MAX_COLLATERAL_REPAY_PERCENTAGE_E10 : Int := 95 * 10 ^ 10

/-- `oevAuctioneerConfig.minBidTimeToLiveSeconds = 15n`. -/
def minBidTimeToLiveSeconds : Int := 15

/-- `parseEther('0.0000000000001')`: the literal bid amount appearing in
`findOevLiquidation` (`0.0000000000001 * 10^18 = 10^5` wei). -/
def HARDCODED_BID_AMOUNT : Int := 100000

/-! ## `min` and `getPercentageValue` (from `src/commons.ts`) -/

/-- `min(...args)` from `src/commons.ts`: seeded with the first argument,
then a linear scan replacing the running minimum whenever a strictly
smaller argument is found.  The source throws on an empty argument list;
callers always pass at least one argument, so the embedding takes the
first argument separately. -/
def jsMin (first : Int) (rest : List Int) : Int :=
  rest.foldl (fun mn a => if a < mn then a else mn) first

/-- `getPercentageValue(value, percent)` from `src/commons.ts`:
`(value * BigInt(Math.trunc(percent * 10 ** 10))) / BigInt(10 ** 10) / 100n`.
The parameter `percentE10` is the exact value of
`Math.trunc(percent * 10 ** 10)` for the percentage in question. -/
def getPercentageValue (value percentE10 : Int) : Int :=
  Int.tdiv (Int.tdiv (value * percentE10) (10 ^ 10)) 100

/-! ## Auction-network data model (from `src/types.ts` and `src/oev-bot.ts`) -/

/-- Bid status, `src/oev-bot.ts` interface `Bid`. -/
inductive BidStatus where
  | active
  | awarded
  | expired
  | lost
deriving DecidableEq, Repr

/-- The decoded bid details carried by a `PlacedBid` log, restricted to
the fields the replay logic reads (`conditionType`, `conditionValue`). -/
structure BidConditionDetails where
  conditionType : Int
  conditionValue : Int
deriving DecidableEq, Repr

/-- Decoded auction-network logs (`OevNetworkLog` in `src/types.ts`),
restricted to the argument fields the replay and pruning logic read:
`bidId`, `expirationTimestamp`, the decoded bid details of a
`PlacedBid`, and the decoded award value and timestamp of an
`AwardedBid`. -/
inductive OevNetworkLog where
  | placedBid (bidId : Nat) (bidDetails : BidConditionDetails) (expirationTimestamp : Int)
  | awardedBid (bidId : Nat) (awardValue : Int) (awardTimestamp : Int)
  | expeditedBidExpiration (bidId : Nat) (expirationTimestamp : Int)
deriving DecidableEq, Repr

/-- The per-bid record kept by `buildOevNetworkState` (`interface Bid`
in `src/oev-bot.ts`); the `log` field is restricted to the bid details
the replay reads from it. -/
structure Bid where
  bidDetails : BidConditionDetails
  status : BidStatus
  expirationTimestamp : Int
deriving DecidableEq, Repr

/-- JavaScript `Map` lookup (`bids.get(bidId)`), on an insertion-ordered
association list. -/
def getA (k : Nat) : List (Nat × Bid) → Option Bid
  | [] => none
  | (k', v) :: rest => if k' = k then some v else getA k rest

/-- JavaScript `Map.set`: replaces the value in place if the key is
present (keeping its insertion position), otherwise appends. -/
def setA (k : Nat) (v : Bid) : List (Nat × Bid) → List (Nat × Bid)
  | [] => [(k, v)]
  | (k', v') :: rest => if k' = k then (k, v) :: rest else (k', v') :: setA k v rest

/-- The body of the `for (const [bidId, bid] of bids)` loop in the
`AwardedBid` case of `buildOevNetworkState`: a non-awarded bid is left
unchanged when (`LTE` and `value > conditionValue`) or (`GTE` and
`value < conditionValue`); otherwise its status is set to `lost`. -/
def markLost (awardValue : Int) (b : Bid) : Bid :=
  if b.bidDetails.conditionType = BID_CONDITION_LTE ∧ awardValue > b.bidDetails.conditionValue then
    b
  else if b.bidDetails.conditionType = BID_CONDITION_GTE ∧ awardValue < b.bidDetails.conditionValue then
    b
  else
    { b with status := BidStatus.lost }

/-- One iteration of the `switch` in `buildOevNetworkState`.  `none`
models the `TypeError` thrown when `bids.get(log.args.bidId)!` returns
`undefined` and the code writes to a property of it. -/
def processLog (bids : List (Nat × Bid)) : OevNetworkLog → Option (List (Nat × Bid))
  | OevNetworkLog.placedBid bidId bidDetails expirationTimestamp =>
      some (setA bidId ⟨bidDetails, BidStatus.active, expirationTimestamp⟩ bids)
  | OevNetworkLog.awardedBid bidId awardValue _ =>
      match getA bidId bids with
      | none => none
      | some _ =>
          some (bids.map fun kb =>
            (kb.1, if kb.1 = bidId then { kb.2 with status := BidStatus.awarded }
              else markLost awardValue kb.2))
  | OevNetworkLog.expeditedBidExpiration bidId expirationTimestamp =>
      match getA bidId bids with
      | none => none
      | some _ =>
          some (bids.map fun kb =>
            (kb.1, if kb.1 = bidId then { kb.2 with expirationTimestamp := expirationTimestamp }
              else kb.2))

/-- The replay loop of `buildOevNetworkState` over the cached logs. -/
def buildBids : List OevNetworkLog → List (Nat × Bid) → Option (List (Nat × Bid))
  | [], bids => some bids
  | l :: ls, bids =>
      match processLog bids l with
      | none => none
      | some bids' => buildBids ls bids'

/-- The final pass of `buildOevNetworkState`: every still-`active` bid
whose expiration is within `minBidTimeToLiveSeconds` of now is
reclassified `expired`. -/
def expirePass (now : Int) (bids : List (Nat × Bid)) : List Bid :=
  bids.map fun kb =>
    if kb.2.status = BidStatus.active ∧ kb.2.expirationTimestamp - now < minBidTimeToLiveSeconds
    then { kb.2 with status := BidStatus.expired }
    else kb.2

/-- `buildOevNetworkState` from `src/oev-bot.ts`: replay the cached log
list into a bid map, then apply the expiry pass and return the list of
bid records (`[...bids.values()]`).  `now` is
`BigInt(Math.trunc(Date.now() / 1000))`.  `none` models the runtime
error thrown when an `AwardedBid`/`ExpeditedBidExpiration` log has no
previously placed bid. -/
def buildOevNetworkState (now : Int) (logs : List OevNetworkLog) : Option (List Bid) :=
  match buildBids logs [] with
  | none => none
  | some bids => some (expirePass now bids)

/-! ## `pruneLogs` (from `src/oev-bot.ts`) -/

/-- The predicate of the `.find` in `pruneLogs`: the log is an
`AwardedBid` whose decoded award timestamp is older than the cutoff. -/
def isOldAwardedBid (cutoff : Int) : OevNetworkLog → Bool
  | OevNetworkLog.awardedBid _ _ awardTimestamp => decide (awardTimestamp < cutoff)
  | _ => false

/-- `pruneLogs` from `src/oev-bot.ts`: the cutoff is 25 hours before
now; the source maps each log to its index, `.find`s the first
`AwardedBid` older than the cutoff (`List.findIdx?`), and if one exists
slices the list from its index (`logs.slice(idx)`), otherwise returns
the list unchanged.  `now` is `Date.now() / 1000` in seconds. -/
def pruneLogs (now : Int) (logs : List OevNetworkLog) : List OevNetworkLog :=
  let cutoff := now - 25 * 60 * 60
  match logs.findIdx? (isOldAwardedBid cutoff) with
  | none => logs
  | some idx => logs.drop idx

/-! ## Simple counting helpers used by the theorems -/

/-- Whether a log entry is a `PlacedBid`. -/
def isPlacedLog : OevNetworkLog → Bool
  | OevNetworkLog.placedBid _ _ _ => true
  | _ => false

/-- Number of `PlacedBid` entries in a log list. -/
def placedCount (logs : List OevNetworkLog) : Nat :=
  logs.countP isPlacedLog

/-- Number of bids with status `active` in a reconstructed state. -/
def countActive (bids : List Bid) : Nat :=
  bids.countP fun b => decide (b.status = BidStatus.active)

/-- Well-formedness of a log list: every `AwardedBid` and every
`ExpeditedBidExpiration` entry references a `PlacedBid` entry earlier in
the list with the same bid id.  `placed` accumulates the bid ids placed
so far. -/
def wellFormedFrom (placed : List Nat) : List OevNetworkLog → Bool
  | [] => true
  | OevNetworkLog.placedBid bidId _ _ :: ls => wellFormedFrom (bidId :: placed) ls
  | OevNetworkLog.awardedBid bidId _ _ :: ls => placed.contains bidId && wellFormedFrom placed ls
  | OevNetworkLog.expeditedBidExpiration bidId _ :: ls =>
      placed.contains bidId && wellFormedFrom placed ls

/-- A log list is well formed when every awarded/expedited entry is
preceded by a placed entry with the same bid id. -/
def wellFormed (logs : List OevNetworkLog) : Bool :=
  wellFormedFrom [] logs

/-! ## `attemptLiquidation` (from `src/oev-bot.ts`)

The function interleaves pure decisions with RPC calls.  The embedding
makes the environment's answers explicit inputs: the result of the
award-event query loop (`none` while no `AwardedBid` event matching the
active bid id is found in the scanned block windows) and the profit pair
decoded from the re-verification staticcall.  The result records the
externally visible effects: the new value of
`storage.currentlyActiveBid`, whether the award-event query was
performed, and whether the execution transaction was submitted. -/

/-- The stored active bid (`CurrentlyActiveBid` in `src/types.ts`),
restricted to the fields `attemptLiquidation` branches on. -/
structure CurrentlyActiveBid where
  bidId : Nat
  bidAmount : Int
  expirationTimestamp : Int
  blockNumber : Int
deriving DecidableEq, Repr

/-- Environment answers consumed by `attemptLiquidation`: the outcome of
the `AwardedBid` query loop and the `(profitEth, profitUsd)` pair decoded
from the `aggregate3Value` staticcall. -/
structure AttemptEnv where
  awardFound : Bool
  staticProfitEth : Int
  staticProfitUsd : Int
deriving DecidableEq, Repr

/-- Externally visible outcome of one `attemptLiquidation` run. -/
structure AttemptResult where
  currentlyActiveBid : Option CurrentlyActiveBid
  queriedAwardEvents : Bool
  performedStaticcall : Bool
  submittedTx : Bool
deriving DecidableEq, Repr

/-- `attemptLiquidation` from `src/oev-bot.ts`, given the stored active
bid, the wall-clock time `now = Math.trunc(Date.now() / 1000)` and the
environment's answers:
1. if `now >= expirationTimestamp`, clear `storage.currentlyActiveBid`
   and return (no award query, no transaction);
2. otherwise query for an `AwardedBid` event; if none is found, return
   with the bid left in place;
3. otherwise clear `storage.currentlyActiveBid`, staticcall the
   update-plus-liquidate batch, and if `profitUsd <= MIN_LIQUIDATION_PROFIT_USD`
   return without submitting; otherwise submit the transaction. -/
def attemptLiquidation (bid : CurrentlyActiveBid) (now : Int) (env : AttemptEnv) :
    AttemptResult :=
  if now ≥ bid.expirationTimestamp then
    { currentlyActiveBid := none, queriedAwardEvents := false,
      performedStaticcall := false, submittedTx := false }
  else if env.awardFound then
    if env.staticProfitUsd ≤ MIN_LIQUIDATION_PROFIT_USD then
      { currentlyActiveBid := none, queriedAwardEvents := true,
        performedStaticcall := true, submittedTx := false }
    else
      { currentlyActiveBid := none, queriedAwardEvents := true,
        performedStaticcall := true, submittedTx := true }
  else
    { currentlyActiveBid := some bid, queriedAwardEvents := true,
      performedStaticcall := false, submittedTx := false }

/-! ## Maximum repay and bid amount (from `findOevLiquidation` in `src/oev-bot.ts`) -/

/-- The close-factor bound:
`(((ethBorrowAsset.borrowBalance * 10n ** 18n) / transmutationValue) * closeFactor) / 10n ** 18n`. -/
def closeFactorBound (borrowBalance transmutationValue closeFactor : Int) : Int :=
  Int.tdiv (Int.tdiv (borrowBalance * 10 ^ 18) transmutationValue * closeFactor) (10 ^ 18)

/-- The buffered collateral bound:
`getPercentageValue((maxTokenBalanceAsset.tokenBalance * 10n ** 18n) / transmutationValue, MAX_COLLATERAL_REPAY_PERCENTAGE)`. -/
def collateralBound (tokenBalance transmutationValue : Int) : Int :=
  getPercentageValue (Int.tdiv (tokenBalance * 10 ^ 18) transmutationValue)
    MAX_COLLATERAL_REPAY_PERCENTAGE_E10

/-- `maxBorrowRepay` as computed in `findOevLiquidation`: the variadic
`min` of the close-factor bound, the liquidator contract's balance, and
the buffered collateral bound, in that order. -/
def maxBorrowRepay (borrowBalance transmutationValue closeFactor
    orbitLiquidatorBalance tokenBalance : Int) : Int :=
  jsMin (closeFactorBound borrowBalance transmutationValue closeFactor)
    [orbitLiquidatorBalance, collateralBound tokenBalance transmutationValue]

/-- The bid-amount expression in `findOevLiquidation`:
`parseEther('0.0000000000001') ?? getPercentageValue((bestLiquidation.profitUsd * 10n ** 18n) / transmutationValue, SIMULATION_PERCENTAGE)`.
`parseEther` returns a `bigint`, never `null`/`undefined`, so the
nullish-coalescing operator always yields its left operand. -/
def bidAmount (profitUsd transmutationValue simulationPercentageE10 : Int) : Int :=
  Option.getD (some HARDCODED_BID_AMOUNT)
    (getPercentageValue (Int.tdiv (profitUsd * 10 ^ 18) transmutationValue)
      simulationPercentageE10)

/-- The right operand of the `??` above, the amount the surrounding
comment documents ("We will use a percentage of the profit as the bid
amount for the OEV auctioneer"). -/
def intendedBidAmount (profitUsd transmutationValue simulationPercentageE10 : Int) : Int :=
  getPercentageValue (Int.tdiv (profitUsd * 10 ^ 18) transmutationValue)
    simulationPercentageE10

/-! ## Bid-details ABI coding (from `src/interfaces.ts`)

`encodeBidDetails` ABI-encodes the tuple
`(address, uint256, int224, address, bytes32)`; all five components are
static types, so the encoding is five 32-byte words.  Words are modelled
as integers in `[0, 2^256)`; the `int224` component is stored in
two's-complement form (sign-extended into the word, i.e. the value
modulo `2^256`).  `decodeBidDetails` reads the words back, taking the
low 160 bits of an address word and sign-extending the low 224 bits of
the `int224` word.  Encoding fails (ethers throws) when a component is
out of range for its type. -/

/-- A bid-details tuple (`BidDetails` in `src/types.ts`): addresses and
the `bytes32` nonce are modelled as their numeric values. -/
structure BidDetails where
  oevProxyAddress : Int
  conditionType : Int
  conditionValue : Int
  updateSenderAddress : Int
  nonce : Int
deriving DecidableEq, Repr

/-- Range validity of a bid-details tuple for the ABI tuple
`(address, uint256, int224, address, bytes32)`. -/
def validBidDetails (bd : BidDetails) : Prop :=
  0 ≤ bd.oevProxyAddress ∧ bd.oevProxyAddress < 2 ^ 160 ∧
  0 ≤ bd.conditionType ∧ bd.conditionType < 2 ^ 256 ∧
  -(2 ^ 223) ≤ bd.conditionValue ∧ bd.conditionValue < 2 ^ 223 ∧
  0 ≤ bd.updateSenderAddress ∧ bd.updateSenderAddress < 2 ^ 160 ∧
  0 ≤ bd.nonce ∧ bd.nonce < 2 ^ 256

instance (bd : BidDetails) : Decidable (validBidDetails bd) := by
  unfold validBidDetails; infer_instance

/-- Two's-complement representation of an `int224` value in a 256-bit
word (the ABI sign-extends, so the word is the value modulo `2^256`). -/
def toTwos256 (v : Int) : Int := v % 2 ^ 256

/-- Sign-extension of the low 224 bits of a word, as performed when
decoding an `int224`. -/
def fromTwos224 (w : Int) : Int :=
  let l := w % 2 ^ 224
  if l < 2 ^ 223 then l else l - 2 ^ 224

/-- `encodeBidDetails` from `src/interfaces.ts`: the five head words of
the ABI encoding, or `none` when a component is out of range (ethers
throws `value out-of-bounds`). -/
def encodeBidDetails (bd : BidDetails) : Option (List Int) :=
  if validBidDetails bd then
    some [bd.oevProxyAddress, bd.conditionType, toTwos256 bd.conditionValue,
      bd.updateSenderAddress, bd.nonce]
  else none

/-- `decodeBidDetails` from `src/interfaces.ts`: reads the five words
back into a tuple (`none` when the word list has the wrong shape). -/
def decodeBidDetails (ws : List Int) : Option BidDetails :=
  match ws with
  | [w0, w1, w2, w3, w4] =>
      some ⟨w0 % 2 ^ 160, w1, fromTwos224 w2, w3 % 2 ^ 160, w4⟩
  | _ => none

/-! ## Watch-list construction (from `src/accounts-to-watch.ts`)

`getAccountsToWatch` fetches borrower addresses from `Borrow` logs and,
in chunks of 500, fetches each account's details and liquidity over RPC
and filters them through `checkHealthOfAccounts`.  The RPC-fetched data
is modelled as an input: one record per borrower holding the decoded
`getAccountDetails` arrays and the decoded `getAccountLiquidity` tuple.
Addresses are modelled by their numeric values. -/

/-- `contractAddresses.oEtherV2` (`0x0872b71EFC37CB8DdE22B2118De3d800427fdba0`). -/
def oEtherV2Address : Nat := 0x0872b71EFC37CB8DdE22B2118De3d800427fdba0

/-- One borrower together with the chain data `checkHealthOfAccounts`
reads for it: the parallel `oTokens`/`borrowBalances` arrays from
`getAccountDetails` and the `(error, liquidity, shortfall)` tuple from
`getAccountLiquidity` (the error slot is never read). -/
structure AccountInfo where
  borrower : Nat
  oTokens : List Nat
  borrowBalances : List Int
  liquidity : Int
  shortfall : Int
deriving DecidableEq, Repr

/-- The inner scan of `checkHealthOfAccounts`: walk the `oTokens` array,
and on every entry equal to the oEtherV2 address overwrite the running
balance with the corresponding borrow balance (initially `0n`; the last
match wins). -/
def ethBorrowBalanceOf (oTokens : List Nat) (borrowBalances : List Int) : Int :=
  (oTokens.zip borrowBalances).foldl
    (fun acc p => if p.1 = oEtherV2Address then p.2 else acc) 0

/-- The per-account decision of `checkHealthOfAccounts`: skip when the
ETH borrow balance is `0n` (falsy), skip when it is below
`MIN_ETH_BORROW`, skip when there is no shortfall and the excess
liquidity exceeds the safe collateral buffer percentage of the
USD-denominated borrow balance; otherwise the account is watched. -/
def watchWorthy (ethUsdPrice : Int) (a : AccountInfo) : Bool :=
  let ethBorrowBalance := ethBorrowBalanceOf a.oTokens a.borrowBalances
  if ethBorrowBalance = 0 then false
  else if ethBorrowBalance < MIN_ETH_BORROW then false
  else
    let ethBorrowBalanceUsd := Int.tdiv (ethBorrowBalance * ethUsdPrice) (10 ^ 18)
    if a.shortfall = 0 ∧
        a.liquidity > getPercentageValue ethBorrowBalanceUsd SAFE_COLLATERAL_BUFFER_PERCENT_E10
    then false
    else true

/-- `checkHealthOfAccounts` from `src/accounts-to-watch.ts`: the
borrowers of the accounts that pass `watchWorthy`, in input order. -/
def checkHealthOfAccounts (ethUsdPrice : Int) (accounts : List AccountInfo) : List Nat :=
  (accounts.filter (watchWorthy ethUsdPrice)).map (fun a => a.borrower)

/-- `lodash.chunk(xs, 500)`. -/
def chunk500 : List AccountInfo → List (List AccountInfo)
  | [] => []
  | x :: xs => ((x :: xs).take 500) :: chunk500 ((x :: xs).drop 500)
termination_by l => l.length
decreasing_by simp [List.length_drop]; omega

/-- `getAccountsToWatch` from `src/accounts-to-watch.ts`: iterate over
the borrower list in chunks of 500 and run each chunk through
`checkHealthOfAccounts`.  The source then evaluates
`accountsToWatch.concat(accountsToWatchBatch)` — `Array.prototype.concat`
returns a fresh array and the result is not assigned, so the
accumulator is never extended; the embedding reproduces this by binding
the concatenation to an unused variable. -/
def getAccountsToWatch (ethUsdPrice : Int) (borrowers : List AccountInfo) : List Nat :=
  (chunk500 borrowers).foldl
    (fun accountsToWatch batch =>
      let accountsToWatchBatch := checkHealthOfAccounts ethUsdPrice batch
      let _ := accountsToWatch ++ accountsToWatchBatch
      accountsToWatch)
    []

/-! ## Helper lemmas -/

/-- Since the result of `concat` is discarded, the fold in
`getAccountsToWatch` never changes its accumulator: the function
returns the empty list on every input. -/
theorem getAccountsToWatch_nil (ethUsdPrice : Int) (borrowers : List AccountInfo) :
    getAccountsToWatch ethUsdPrice borrowers = [] := by
  unfold getAccountsToWatch
  generalize chunk500 borrowers = cs
  induction cs with
  | nil => rfl
  | cons c cs ih => simp only [List.foldl_cons]; exact ih

/-- `setA` grows the association list by at most one entry. -/
theorem setA_length_le (k : Nat) (v : Bid) :
    ∀ l : List (Nat × Bid), (setA k v l).length ≤ l.length + 1 := by
  intro l
  induction l with
  | nil => simp [setA]
  | cons kv rest ih =>
      obtain ⟨k', v'⟩ := kv
      simp only [setA]
      split
      · simp
      · simp only [List.length_cons]
        omega

/-- A single replay step grows the bid map by at most one entry, and
only on a `PlacedBid` log. -/
theorem processLog_length_le (bids bids' : List (Nat × Bid)) (l : OevNetworkLog)
    (h : processLog bids l = some bids') :
    bids'.length ≤ bids.length + (if isPlacedLog l then 1 else 0) := by
  cases l with
  | placedBid bidId bidDetails expirationTimestamp =>
      simp only [processLog, Option.some.injEq] at h
      subst h
      simpa [isPlacedLog] using setA_length_le bidId _ bids
  | awardedBid bidId awardValue awardTimestamp =>
      simp only [processLog] at h
      cases hget : getA bidId bids with
      | none => rw [hget] at h; cases h
      | some b =>
          rw [hget] at h
          simp only [Option.some.injEq] at h
          subst h
          simp [isPlacedLog]
  | expeditedBidExpiration bidId expirationTimestamp =>
      simp only [processLog] at h
      cases hget : getA bidId bids with
      | none => rw [hget] at h; cases h
      | some b =>
          rw [hget] at h
          simp only [Option.some.injEq] at h
          subst h
          simp [isPlacedLog]

/-- Replaying a log list grows the bid map by at most the number of
`PlacedBid` entries. -/
theorem buildBids_length_le :
    ∀ (ls : List OevNetworkLog) (bids bids' : List (Nat × Bid)),
      buildBids ls bids = some bids' → bids'.length ≤ bids.length + placedCount ls := by
  intro ls
  induction ls with
  | nil =>
      intro bids bids' h
      simp only [buildBids, Option.some.injEq] at h
      subst h
      simp [placedCount]
  | cons l ls ih =>
      intro bids bids' h
      simp only [buildBids] at h
      cases hstep : processLog bids l with
      | none => rw [hstep] at h; cases h
      | some bids1 =>
          rw [hstep] at h
          have h1 := processLog_length_le bids bids1 l hstep
          have h2 := ih bids1 bids' h
          have h3 : placedCount (l :: ls) = placedCount ls + (if isPlacedLog l then 1 else 0) := by
            simp only [placedCount, List.countP_cons]
          cases hl : isPlacedLog l <;> rw [hl] at h1 h3 <;> simp at h1 h3 <;> omega

/-- The expiry pass cannot create more `active` bids than there are
entries in the bid map. -/
theorem countActive_expirePass_le (now : Int) (bids : List (Nat × Bid)) :
    countActive (expirePass now bids) ≤ bids.length := by
  calc countActive (expirePass now bids) ≤ (expirePass now bids).length :=
        List.countP_le_length _
    _ = bids.length := by simp [expirePass]

/-! ## Claim theorems -/

/-- C5.  For every input tuple, the maximum repay computed by the
scanner (`maxBorrowRepay` in `findOevLiquidation`) equals the minimum of
its three bounding inputs — the close-factor-bounded borrow share, the
liquidator contract balance, and the buffered collateral share — and in
particular never exceeds any of the three. -/
theorem maxBorrowRepay_eq_min (borrowBalance transmutationValue closeFactor
    orbitLiquidatorBalance tokenBalance : Int) :
    maxBorrowRepay borrowBalance transmutationValue closeFactor
        orbitLiquidatorBalance tokenBalance =
      min (closeFactorBound borrowBalance transmutationValue closeFactor)
        (min orbitLiquidatorBalance (collateralBound tokenBalance transmutationValue)) ∧
    maxBorrowRepay borrowBalance transmutationValue closeFactor
        orbitLiquidatorBalance tokenBalance ≤
      closeFactorBound borrowBalance transmutationValue closeFactor ∧
    maxBorrowRepay borrowBalance transmutationValue closeFactor
        orbitLiquidatorBalance tokenBalance ≤ orbitLiquidatorBalance ∧
    maxBorrowRepay borrowBalance transmutationValue closeFactor
        orbitLiquidatorBalance tokenBalance ≤
      collateralBound tokenBalance transmutationValue := by
  simp only [maxBorrowRepay, jsMin, List.foldl, min_def]
  split_ifs <;> omega

/-- C6.  If the active bid's expiration timestamp is at or before the
current wall-clock time, `attemptLiquidation` clears the active-bid slot
and performs no further action: the award-event query is not run and no
transaction is submitted. -/
theorem attemptLiquidation_expired_clears_bid (bid : CurrentlyActiveBid) (now : Int)
    (env : AttemptEnv) (h : bid.expirationTimestamp ≤ now) :
    attemptLiquidation bid now env =
      { currentlyActiveBid := none, queriedAwardEvents := false,
        performedStaticcall := false, submittedTx := false } := by
  unfold attemptLiquidation
  rw [if_pos h]

/-- Witness for C6 at a concrete input: bid expiring at `100`, current
time `101`. -/
theorem attemptLiquidation_expired_clears_bid_witness :
    attemptLiquidation ⟨1, 5, 100, 7⟩ 101 ⟨true, 0, 0⟩ =
      { currentlyActiveBid := none, queriedAwardEvents := false,
        performedStaticcall := false, submittedTx := false } :=
  attemptLiquidation_expired_clears_bid ⟨1, 5, 100, 7⟩ 101 ⟨true, 0, 0⟩ (by decide)

/-- C7.  When `attemptLiquidation` finds the active bid awarded (before
expiration) but the re-verification staticcall reports a profit below
`MIN_LIQUIDATION_PROFIT_USD`, no execution transaction is submitted and
the active-bid slot is cleared. -/
theorem attemptLiquidation_low_profit_aborts (bid : CurrentlyActiveBid) (now : Int)
    (env : AttemptEnv) (hnotExpired : now < bid.expirationTimestamp)
    (hawarded : env.awardFound = true)
    (hlow : env.staticProfitUsd < MIN_LIQUIDATION_PROFIT_USD) :
    (attemptLiquidation bid now env).submittedTx = false ∧
    (attemptLiquidation bid now env).currentlyActiveBid = none := by
  unfold attemptLiquidation
  rw [if_neg (by omega), if_pos hawarded, if_pos (le_of_lt hlow)]
  exact ⟨rfl, rfl⟩

/-- Witness for C7 at a concrete input: an awarded bid whose
re-verified profit `10^15` is below the `10^16` minimum. -/
theorem attemptLiquidation_low_profit_aborts_witness :
    (attemptLiquidation ⟨1, 5, 100, 7⟩ 50 ⟨true, 0, 10 ^ 15⟩).submittedTx = false ∧
    (attemptLiquidation ⟨1, 5, 100, 7⟩ 50 ⟨true, 0, 10 ^ 15⟩).currentlyActiveBid = none :=
  attemptLiquidation_low_profit_aborts ⟨1, 5, 100, 7⟩ 50 ⟨true, 0, 10 ^ 15⟩
    (by decide) (by decide) (by decide)

/-- C3 (code bug).  The bid amount submitted by `findOevLiquidation` is
the constant `parseEther('0.0000000000001') = 100000` wei for every
candidate — the nullish-coalescing operator discards the
percentage-of-profit expression, contradicting the source's own comment
("We will use a percentage of the profit as the bid amount").  At the
failing input (profit `10^18`, transmutation value `2·10^21`, simulation
percentage `0.2`), the intended percentage-of-profit amount is `10^12`,
one hundred times the constant actually bid. -/
theorem bidAmount_constant_bug :
    (∀ profitUsd transmutationValue simulationPercentageE10 : Int,
      bidAmount profitUsd transmutationValue simulationPercentageE10 =
        HARDCODED_BID_AMOUNT) ∧
    intendedBidAmount (10 ^ 18) (2 * 10 ^ 21) (2 * 10 ^ 9) = 10 ^ 12 ∧
    HARDCODED_BID_AMOUNT ≠ (10 ^ 12 : Int) := by
  refine ⟨fun _ _ _ => rfl, rfl, by decide⟩

/-- C4 (code bug).  A borrower whose ETH borrow balance (1 ETH) meets
`MIN_ETH_BORROW` and who has a nonzero shortfall passes
`checkHealthOfAccounts`, yet `getAccountsToWatch` returns a borrower
list not containing it — the list is empty, because the result of
`accountsToWatch.concat(...)` is discarded. -/
theorem getAccountsToWatch_drops_healthy_borrower :
    checkHealthOfAccounts (2000 * 10 ^ 18)
        [⟨100, [oEtherV2Address], [10 ^ 18], 0, 1⟩] = [100] ∧
    getAccountsToWatch (2000 * 10 ^ 18)
        [⟨100, [oEtherV2Address], [10 ^ 18], 0, 1⟩] = [] :=
  ⟨by decide, getAccountsToWatch_nil _ _⟩

/-- Looking up a key after a key-preserving entrywise map applies the
update function to the looked-up value. -/
theorem getA_map_entries (g : Nat → Bid → Bid) :
    ∀ (l : List (Nat × Bid)) (k : Nat),
      getA k (l.map fun kb => (kb.1, g kb.1 kb.2)) = (getA k l).map (g k) := by
  intro l
  induction l with
  | nil => intro k; simp [getA]
  | cons kv rest ih =>
      intro k
      obtain ⟨k', v'⟩ := kv
      simp only [List.map_cons, getA]
      by_cases h : k' = k
      · subst h
        simp
      · simp only [if_neg h]
        exact ih k

/-- `Map.set` then `Map.get`: the set key returns the new value, other
keys are unaffected. -/
theorem getA_setA (k j : Nat) (v : Bid) :
    ∀ l : List (Nat × Bid), getA j (setA k v l) = if k = j then some v else getA j l := by
  intro l
  induction l with
  | nil => simp [setA, getA]
  | cons kv rest ih =>
      obtain ⟨k', v'⟩ := kv
      simp only [setA]
      by_cases hk : k' = k
      · subst hk
        simp only [if_pos rfl, getA]
        by_cases hj : k' = j <;> simp [hj]
      · simp only [if_neg hk, getA, ih]
        by_cases hj : k' = j
        · subst hj
          simp [Ne.symm hk]
        · simp [hj]

/-- If every bid id placed so far is a key of the bid map, replaying a
log list that is well formed relative to those placed ids succeeds. -/
theorem buildBids_some_of_wellFormedFrom :
    ∀ (ls : List OevNetworkLog) (placed : List Nat) (bids : List (Nat × Bid)),
      wellFormedFrom placed ls = true →
      (∀ j ∈ placed, (getA j bids).isSome = true) →
      ∃ final, buildBids ls bids = some final := by
  intro ls
  induction ls with
  | nil => exact fun _ bids _ _ => ⟨bids, rfl⟩
  | cons l ls ih =>
      intro placed bids hwf hinv
      cases l with
      | placedBid bidId bidDetails expirationTimestamp =>
          simp only [wellFormedFrom] at hwf
          have hinv' : ∀ j ∈ bidId :: placed,
              (getA j (setA bidId ⟨bidDetails, BidStatus.active, expirationTimestamp⟩
                bids)).isSome = true := by
            intro j hj
            rw [getA_setA]
            by_cases hbj : bidId = j
            · simp [hbj]
            · rw [if_neg hbj]
              rcases List.mem_cons.mp hj with hj1 | hj2
              · exact absurd hj1.symm hbj
              · exact hinv j hj2
          obtain ⟨final, hfinal⟩ :=
            ih (bidId :: placed)
              (setA bidId ⟨bidDetails, BidStatus.active, expirationTimestamp⟩ bids) hwf hinv'
          exact ⟨final, by simp only [buildBids, processLog]; exact hfinal⟩
      | awardedBid bidId awardValue awardTimestamp =>
          simp only [wellFormedFrom, Bool.and_eq_true] at hwf
          obtain ⟨hmem, hwf'⟩ := hwf
          replace hmem : bidId ∈ placed := by simpa using hmem
          obtain ⟨b0, hb0⟩ := Option.isSome_iff_exists.mp (hinv bidId hmem)
          have hinv' : ∀ j ∈ placed,
              (getA j (bids.map fun kb =>
                (kb.1, if kb.1 = bidId then { kb.2 with status := BidStatus.awarded }
                  else markLost awardValue kb.2))).isSome = true := by
            intro j hj
            rw [getA_map_entries (fun i bid =>
              if i = bidId then { bid with status := BidStatus.awarded }
                else markLost awardValue bid)]
            obtain ⟨bj, hbj⟩ := Option.isSome_iff_exists.mp (hinv j hj)
            simp [hbj]
          obtain ⟨final, hfinal⟩ := ih placed _ hwf' hinv'
          refine ⟨final, ?_⟩
          simp only [buildBids, processLog, hb0]
          exact hfinal
      | expeditedBidExpiration bidId expirationTimestamp =>
          simp only [wellFormedFrom, Bool.and_eq_true] at hwf
          obtain ⟨hmem, hwf'⟩ := hwf
          replace hmem : bidId ∈ placed := by simpa using hmem
          obtain ⟨b0, hb0⟩ := Option.isSome_iff_exists.mp (hinv bidId hmem)
          have hinv' : ∀ j ∈ placed,
              (getA j (bids.map fun kb =>
                (kb.1, if kb.1 = bidId then { kb.2 with expirationTimestamp := expirationTimestamp }
                  else kb.2))).isSome = true := by
            intro j hj
            rw [getA_map_entries (fun i bid =>
              if i = bidId then { bid with expirationTimestamp := expirationTimestamp }
                else bid)]
            obtain ⟨bj, hbj⟩ := Option.isSome_iff_exists.mp (hinv j hj)
            simp [hbj]
          obtain ⟨final, hfinal⟩ := ih placed _ hwf' hinv'
          refine ⟨final, ?_⟩
          simp only [buildBids, processLog, hb0]
          exact hfinal

/-- C2 counterexample.  In the log replay, a bid that is no longer
active is still overwritten to `lost` by a later `AwardedBid` event
whose value satisfies its condition: bid 1 is awarded (status
`awarded`), then the award of bid 2 at value 150 — which satisfies bid
1's GTE-100 condition — resets bid 1's status to `lost`, contradicting
the claim that non-active bids are not marked `lost`. -/
theorem awarded_bid_overwritten_to_lost_counterexample :
    buildOevNetworkState 0
      [OevNetworkLog.placedBid 1 ⟨BID_CONDITION_GTE, 100⟩ 1000000000,
       OevNetworkLog.awardedBid 1 150 5,
       OevNetworkLog.placedBid 2 ⟨BID_CONDITION_GTE, 100⟩ 1000000000,
       OevNetworkLog.awardedBid 2 150 6] =
      some [⟨⟨1, 100⟩, BidStatus.lost, 1000000000⟩,
        ⟨⟨1, 100⟩, BidStatus.awarded, 1000000000⟩] := by
  decide

/-- C2 amended.  Processing an `AwardedBid` event with value `V` sets
the status of every *other* bid in the map — regardless of its current
status — to `lost` exactly when (`GTE` and `V ≥ threshold`) or (`LTE`
and `V ≤ threshold`), and leaves its status unchanged otherwise; a bid
that was already awarded or lost is overwritten just the same. -/
theorem awardedBid_lost_marking (bids bids' : List (Nat × Bid)) (awardId : Nat) (V T : Int)
    (h : processLog bids (OevNetworkLog.awardedBid awardId V T) = some bids')
    (k : Nat) (b : Bid) (hk : k ≠ awardId) (hget : getA k bids = some b)
    (hct : b.bidDetails.conditionType = BID_CONDITION_GTE ∨
      b.bidDetails.conditionType = BID_CONDITION_LTE) :
    getA k bids' = some
      (if (b.bidDetails.conditionType = BID_CONDITION_GTE ∧ b.bidDetails.conditionValue ≤ V) ∨
          (b.bidDetails.conditionType = BID_CONDITION_LTE ∧ V ≤ b.bidDetails.conditionValue)
        then { b with status := BidStatus.lost } else b) := by
  simp only [processLog] at h
  cases hga : getA awardId bids with
  | none => rw [hga] at h; cases h
  | some b0 =>
      rw [hga] at h
      simp only [Option.some.injEq] at h
      subst h
      have hmap := getA_map_entries
        (fun j bid => if j = awardId then { bid with status := BidStatus.awarded }
          else markLost V bid) bids k
      simp only [hmap, hget, Option.map_some', if_neg hk]
      congr 1
      unfold markLost
      rcases hct with h1 | h1 <;> rw [h1] <;>
        simp only [BID_CONDITION_GTE, BID_CONDITION_LTE] <;>
        split_ifs <;> first | rfl | omega | simp_all

/-- Witness for the amended C2 at a concrete input: awarding bid 2 at
value 150 marks bid 1 (GTE 100, still active) `lost`. -/
theorem awardedBid_lost_marking_witness :
    getA 1 [(1, ⟨⟨1, 100⟩, BidStatus.lost, 1000⟩),
      (2, ⟨⟨1, 200⟩, BidStatus.awarded, 1000⟩)] =
      some ⟨⟨1, 100⟩, BidStatus.lost, 1000⟩ := by
  have h := awardedBid_lost_marking
    [(1, ⟨⟨1, 100⟩, BidStatus.active, 1000⟩), (2, ⟨⟨1, 200⟩, BidStatus.active, 1000⟩)]
    [(1, ⟨⟨1, 100⟩, BidStatus.lost, 1000⟩), (2, ⟨⟨1, 200⟩, BidStatus.awarded, 1000⟩)]
    2 150 5 (by decide) 1 ⟨⟨1, 100⟩, BidStatus.active, 1000⟩ (by decide) (by decide)
    (Or.inl (by decide))
  simpa using h

/-- C1 counterexample.  A well-formed log sequence of two `PlacedBid`
events (no awards, far-future expirations) reconstructs to a state with
two bids of status `active`: `buildOevNetworkState` does not enforce an
at-most-one-active-bid invariant over all valid log sequences. -/
theorem buildOevNetworkState_two_active_counterexample :
    wellFormed [OevNetworkLog.placedBid 1 ⟨1, 100⟩ 1000,
      OevNetworkLog.placedBid 2 ⟨1, 100⟩ 1000] = true ∧
    buildOevNetworkState 0 [OevNetworkLog.placedBid 1 ⟨1, 100⟩ 1000,
      OevNetworkLog.placedBid 2 ⟨1, 100⟩ 1000] =
      some [⟨⟨1, 100⟩, BidStatus.active, 1000⟩, ⟨⟨1, 100⟩, BidStatus.active, 1000⟩] ∧
    countActive [⟨⟨1, 100⟩, BidStatus.active, 1000⟩,
      ⟨⟨1, 100⟩, BidStatus.active, 1000⟩] = 2 := by
  exact ⟨by decide, by decide, by decide⟩

/-- C1 amended.  The bid-status map reconstructed by
`buildOevNetworkState` holds at most one entry in status `active` for
log sequences containing at most one `PlacedBid` event (the situation
the bot's single-bid placement discipline produces); with several
`PlacedBid` events and no matching awards, several bids can be `active`
simultaneously, as the source itself acknowledges by warning when
`expediteActiveBids` finds more than one. -/
theorem buildOevNetworkState_single_placed_single_active (now : Int)
    (logs : List OevNetworkLog) (st : List Bid)
    (hst : buildOevNetworkState now logs = some st)
    (hplaced : placedCount logs ≤ 1) : countActive st ≤ 1 := by
  unfold buildOevNetworkState at hst
  cases hb : buildBids logs [] with
  | none => rw [hb] at hst; cases hst
  | some bids =>
      rw [hb] at hst
      simp only [Option.some.injEq] at hst
      subst hst
      have h1 := buildBids_length_le logs [] bids hb
      have h2 := countActive_expirePass_le now bids
      simp only [List.length_nil, Nat.zero_add] at h1
      omega

/-- Witness for the amended C1 at a concrete input: a single placed
bid, reconstructed to a single active bid. -/
theorem buildOevNetworkState_single_placed_single_active_witness :
    countActive [⟨⟨1, 100⟩, BidStatus.active, 1000⟩] ≤ 1 :=
  buildOevNetworkState_single_placed_single_active 0
    [OevNetworkLog.placedBid 1 ⟨1, 100⟩ 1000]
    [⟨⟨1, 100⟩, BidStatus.active, 1000⟩] (by decide) (by decide)

/-- C8 amended.  `pruneLogs` returns a suffix of its input: it drops
exactly the entries strictly before the first `AwardedBid` whose award
timestamp is older than the 25-hour cutoff.  The dropped prefix
contains no stale `AwardedBid` entry, and either the whole list
contains no stale `AwardedBid` at all (then nothing is dropped), or the
retained suffix starts with the first stale `AwardedBid` — these
clauses pin the drop index to exactly that first stale entry, so
dropping really occurs whenever a stale `AwardedBid` exists, and stale
entries from it onward are retained, not removed. -/
theorem pruneLogs_drop_characterization (now : Int) (logs : List OevNetworkLog) :
    ∃ n, pruneLogs now logs = logs.drop n ∧
      (∀ j (_ : j < n) (hjl : j < logs.length),
        isOldAwardedBid (now - 25 * 60 * 60) logs[j] = false) ∧
      ((n = 0 ∧ ∀ l ∈ logs, isOldAwardedBid (now - 25 * 60 * 60) l = false) ∨
        ∃ h : n < logs.length,
          isOldAwardedBid (now - 25 * 60 * 60) logs[n] = true) := by
  cases h : List.findIdx? (isOldAwardedBid (now - 25 * 60 * 60)) logs with
  | none =>
      have hall : ∀ l ∈ logs, isOldAwardedBid (now - 25 * 60 * 60) l = false :=
        List.findIdx?_eq_none_iff.mp h
      refine ⟨0, ?_, ?_, Or.inl ⟨rfl, hall⟩⟩
      · simp only [pruneLogs, h, List.drop_zero]
      · intro j hj _
        omega
  | some idx =>
      have hdrop : pruneLogs now logs = logs.drop idx := by
        simp only [pruneLogs, h]
      rw [List.findIdx?_eq_some_iff_getElem] at h
      obtain ⟨hlen, hp, hprev⟩ := h
      refine ⟨idx, hdrop, ?_, Or.inr ⟨hlen, hp⟩⟩
      intro j hj hjl
      have := hprev j hj
      simpa using this

/-- C8 counterexample.  A single `AwardedBid` log whose award timestamp
(`0`) is far older than the 25-hour retention cutoff at current time
`10^6` is not removed by `pruneLogs`: the claim that all entries older
than the retention window are removed fails. -/
theorem pruneLogs_keeps_stale_log_counterexample :
    pruneLogs 1000000 [OevNetworkLog.awardedBid 1 0 0] =
      [OevNetworkLog.awardedBid 1 0 0] ∧
    isOldAwardedBid (1000000 - 25 * 60 * 60) (OevNetworkLog.awardedBid 1 0 0) = true := by
  exact ⟨by decide, by decide⟩

/-- Round trip of the `int224` two's-complement word representation for
in-range values. -/
theorem fromTwos224_toTwos256 (v : Int) (hlo : -(2 ^ 223) ≤ v) (hhi : v < 2 ^ 223) :
    fromTwos224 (toTwos256 v) = v := by
  simp only [fromTwos224, toTwos256]
  split_ifs <;> omega

/-- C9.  For every valid bid-details tuple — addresses in range,
`conditionType` a `uint256`, `conditionValue` in the `int224` range, and
a `bytes32` nonce — `encodeBidDetails` succeeds and `decodeBidDetails`
applied to the encoding returns the original tuple. -/
theorem decodeBidDetails_encodeBidDetails_roundtrip (bd : BidDetails)
    (h : validBidDetails bd) :
    ∃ ws, encodeBidDetails bd = some ws ∧ decodeBidDetails ws = some bd := by
  obtain ⟨oevProxyAddress, conditionType, conditionValue, updateSenderAddress, nonce⟩ := bd
  have h' := h
  simp only [validBidDetails] at h'
  obtain ⟨h1, h2, h3, h4, h5, h6, h7, h8, h9, h10⟩ := h'
  refine ⟨[oevProxyAddress, conditionType, toTwos256 conditionValue,
    updateSenderAddress, nonce], ?_, ?_⟩
  · unfold encodeBidDetails
    rw [if_pos h]
  · have e1 : oevProxyAddress % 2 ^ 160 = oevProxyAddress := by omega
    have e4 : updateSenderAddress % 2 ^ 160 = updateSenderAddress := by omega
    have e3 := fromTwos224_toTwos256 conditionValue h5 h6
    simp only [decodeBidDetails, e1, e4, e3]

/-- Witness for C9 at a concrete tuple with a negative condition
value. -/
theorem decodeBidDetails_encodeBidDetails_roundtrip_witness :
    ∃ ws, encodeBidDetails ⟨3, 1, -5, 7, 9⟩ = some ws ∧
      decodeBidDetails ws = some ⟨3, 1, -5, 7, 9⟩ :=
  decodeBidDetails_encodeBidDetails_roundtrip ⟨3, 1, -5, 7, 9⟩ (by decide)

/-- C10.  `buildOevNetworkState` returns a bid-status map whenever
every `AwardedBid` and `ExpeditedBidExpiration` entry is preceded by a
`PlacedBid` entry with the same bid id; and that precondition is real:
the singleton list of an `AwardedBid` with no preceding `PlacedBid` —
exactly what `pruneLogs` produces from the well-formed list
`[PlacedBid 1, AwardedBid 1 (stale)]` by dropping the prefix before the
stale award — makes the reconstruction fail with a runtime error
(`none`) instead of returning a state. -/
theorem buildOevNetworkState_requires_preceding_placed :
    (∀ (now : Int) (logs : List OevNetworkLog), wellFormed logs = true →
      ∃ st, buildOevNetworkState now logs = some st) ∧
    wellFormed [OevNetworkLog.awardedBid 1 5 0] = false ∧
    buildOevNetworkState 0 [OevNetworkLog.awardedBid 1 5 0] = none ∧
    wellFormed [OevNetworkLog.placedBid 1 ⟨1, 100⟩ 99,
      OevNetworkLog.awardedBid 1 5 0] = true ∧
    pruneLogs 1000000 [OevNetworkLog.placedBid 1 ⟨1, 100⟩ 99,
      OevNetworkLog.awardedBid 1 5 0] = [OevNetworkLog.awardedBid 1 5 0] := by
  refine ⟨?_, by decide, by decide, by decide, by decide⟩
  intro now logs hwf
  obtain ⟨final, hfinal⟩ :=
    buildBids_some_of_wellFormedFrom logs [] [] hwf (by intro j hj; cases hj)
  exact ⟨expirePass now final, by simp only [buildOevNetworkState, hfinal]⟩

/-- Witness for C10 at a concrete input: a single placed bid is a
well-formed log list, and the reconstruction succeeds on it. -/
theorem buildOevNetworkState_requires_preceding_placed_witness :
    ∃ st, buildOevNetworkState 0 [OevNetworkLog.placedBid 1 ⟨1, 100⟩ 1000] = some st :=
  buildOevNetworkState_requires_preceding_placed.1 0
    [OevNetworkLog.placedBid 1 ⟨1, 100⟩ 1000] (by decide)

end OevBot

